import Mathlib

/-!
# Verification of the WinJS `_CommandingSurface` adaptive command bar

Shallow embedding of the algorithmic core of
`src/js/WinJS/Controls/CommandingSurface/_Constants.ts` (which also contains the
`_CommandingSurface` class implementation):

* `_getCommandsInfo` — priority synthesis and width lookup for primary commands;
* `_getPrimaryCommandsLocation` — the priority partition between action area and
  overflow area;
* `_hideSeparatorsIfNeeded` — separator collapsing in the projected menu list;
* `_dataDirty` / `_meaurementsDirty` / `_layoutDirty` and
  `_updateDomImpl_updateCommands` — the staged layout pipeline;
* `_measure` — the measurement cache;
* `_keyDownHandler` — keyboard focus navigation;
* the `closedDisplayMode` setter.

JavaScript numbers used by this code are integers (priorities, stage counters)
or finite non-negative pixel widths; widths are modelled as `Int` so that the
running `availableWidth -= width` subtraction can go negative exactly as in the
source.  The sentinel `Number.MAX_VALUE` used for `maxPriority` compares larger
than every other finite JS number, so the cutoff is modelled as `Option Int`
with `none` standing for `Number.MAX_VALUE`.  `Array.prototype.sort` is stable
(and is invoked with comparator `p1 - p2`), which is modelled by the stable
`List.insertionSort` with `a.priority ≤ b.priority`.
-/

namespace CommandingSurface

/-- Command `type` constants from `_Constants.ts`. -/
def typeSeparator : String := "separator"

/-- `typeContent` from `_Constants.ts`. -/
def typeContent : String := "content"

/-- `typeButton` from `_Constants.ts`. -/
def typeButton : String := "button"

/-- `typeToggle` from `_Constants.ts`. -/
def typeToggle : String := "toggle"

/-- `typeFlyout` from `_Constants.ts`. -/
def typeFlyout : String := "flyout"

/-- `CommandLayoutPipeline.newDataStage`. -/
def newDataStage : Nat := 3

/-- `CommandLayoutPipeline.measuringStage`. -/
def measuringStage : Nat := 2

/-- `CommandLayoutPipeline.layoutStage`. -/
def layoutStage : Nat := 1

/-- `CommandLayoutPipeline.idle`. -/
def idleStage : Nat := 0

/-- A primary command as read by `_getCommandsInfo`: its `priority` property
(`none` models the JS value `undefined`), whether its element currently has
`style.display === "none"`, and an identity used to tell commands apart. -/
structure Command where
  priority? : Option Int
  displayNone : Bool
  id : Nat
deriving DecidableEq

/-- The transient `ICommandInfo` tuple `{command, width, priority}`. -/
structure CommandInfo where
  command : Command
  width : Int
  priority : Int
deriving DecidableEq

instance : Inhabited CommandInfo := ⟨⟨⟨none, false, 0⟩, 0, 0⟩⟩

/-- Recursive helper embedding the back-to-front `for` loop of
`_getCommandsInfo`.  The input list is the primary commands in **reverse**
declaration order (the loop runs `i = length - 1` down to `0`), `counter` is
`currentAssignedPriority`, and `getCommandWidth` abstracts
`this._getCommandWidth(command)`.  Each iteration `unshift`s onto the result,
so the output is in original declaration order. -/
def getCommandsInfoRev (getCommandWidth : Command → Int) :
    Int → List Command → List CommandInfo
  | _, [] => []
  | counter, c :: rest =>
    let priority := match c.priority? with
      | none => counter
      | some p => p
    let counter' := match c.priority? with
      | none => counter - 1
      | some _ => counter
    let width := if c.displayNone then 0 else getCommandWidth c
    getCommandsInfoRev getCommandWidth counter' rest ++ [⟨c, width, priority⟩]

/-- `_getCommandsInfo`: walk the primary commands back to front, assigning
`currentAssignedPriority--` (starting from `0`) to each command whose
`priority` is `undefined`, and `width = 0` for commands whose element has
`display === "none"`. -/
def getCommandsInfo (getCommandWidth : Command → Int) (primaryCommands : List Command) :
    List CommandInfo :=
  getCommandsInfoRev getCommandWidth 0 primaryCommands.reverse

/-- The comparison used by `sortedCommandsInfo`: ascending `priority`. -/
def priorityLE (a b : CommandInfo) : Prop := a.priority ≤ b.priority

instance : DecidableRel priorityLE := fun a b => inferInstanceAs (Decidable (_ ≤ _))

instance : IsTotal CommandInfo priorityLE := ⟨fun a b => Int.le_total a.priority b.priority⟩

instance : IsTrans CommandInfo priorityLE := ⟨fun _ _ _ h h' => le_trans h h'⟩

/-- `commandsInfo.slice(0).sort((c1, c2) => c1.priority - c2.priority)`:
a stable ascending sort by priority. -/
def sortByPriority (commandsInfo : List CommandInfo) : List CommandInfo :=
  List.insertionSort priorityLE commandsInfo

/-- The `for` loop of `_getPrimaryCommandsLocation` over the sorted command
infos: subtract each width from `availableWidth`, reserve
`overflowButtonWidth` when there are secondary commands or this is not the
last command (`i < len - 1`), and stop with `maxPriority = priority - 1` at
the first command where the remaining width goes negative.  `none` models the
untouched `Number.MAX_VALUE` default. -/
def findCutoff (overflowButtonWidth : Int) (hasSecondaryCommands : Bool) :
    Int → List CommandInfo → Option Int
  | _, [] => none
  | availableWidth, c :: rest =>
    let availableWidth' := availableWidth - c.width
    let overflowButtonSpace : Int :=
      if hasSecondaryCommands || !rest.isEmpty then overflowButtonWidth else 0
    if availableWidth' - overflowButtonSpace < 0 then
      some (c.priority - 1)
    else
      findCutoff overflowButtonWidth hasSecondaryCommands availableWidth' rest

/-- `commandInfo.priority <= maxPriority`, with `none` (`Number.MAX_VALUE`)
admitting every finite priority. -/
def cutoffOK (maxPriority : Option Int) (p : Int) : Bool :=
  match maxPriority with
  | none => true
  | some m => p ≤ m

/-- `_getPrimaryCommandsLocation`: compute the cutoff over a sorted copy and
partition the original `commandsInfo` (in declaration order) into
`actionAreaCommands` and `overflowAreaCommands`. -/
def getPrimaryCommandsLocation (overflowButtonWidth availableWidth : Int)
    (hasSecondaryCommands : Bool) (commandsInfo : List CommandInfo) :
    List Command × List Command :=
  let sortedCommandsInfo := sortByPriority commandsInfo
  let maxPriority :=
    findCutoff overflowButtonWidth hasSecondaryCommands availableWidth sortedCommandsInfo
  ((commandsInfo.filter (fun ci => cutoffOK maxPriority ci.priority)).map (·.command),
   (commandsInfo.filter (fun ci => !cutoffOK maxPriority ci.priority)).map (·.command))

/-! ## Specification-side definitions for claim C1

The following definitions transcribe the spec sentence: "Walk this sorted list
accumulating consumed width; reserve overflow-button width unless this is the
last command being evaluated and there are no secondary commands ... The first
command at which remaining width would go negative fixes a `maxPriority`
cutoff at (that command's priority − 1); all commands with priority ≤ cutoff
stay in the action area in original order, the rest overflow in original
order."  They are compared with the source embedding above. -/

/-- Total width of a list of command infos. -/
def sumWidths (l : List CommandInfo) : Int := (l.map (·.width)).sum

/-- The spec's reserved width at step `i` of a walk over `len` commands:
the overflow-button width, unless `i` is the last step and no secondary
commands exist. -/
def specReserve (overflowButtonWidth : Int) (hasSecondaryCommands : Bool) (len i : Nat) : Int :=
  if i + 1 = len ∧ hasSecondaryCommands = false then 0 else overflowButtonWidth

/-- The spec's "remaining width" after evaluating command `i` of the sorted
list: available width minus the accumulated consumed width through `i`, minus
the reserved overflow-button width. -/
def specRemaining (overflowButtonWidth availableWidth : Int) (hasSecondaryCommands : Bool)
    (sorted : List CommandInfo) (i : Nat) : Int :=
  availableWidth - sumWidths (sorted.take (i + 1)) -
    specReserve overflowButtonWidth hasSecondaryCommands sorted.length i

/-- Index of the first command of the sorted walk at which the remaining width
would go negative, if any. -/
def specFirstNegative (overflowButtonWidth availableWidth : Int) (hasSecondaryCommands : Bool)
    (sorted : List CommandInfo) : Option Nat :=
  (List.range sorted.length).find?
    (fun i => specRemaining overflowButtonWidth availableWidth hasSecondaryCommands sorted i < 0)

/-- The spec's `maxPriority` cutoff: priority of the first failing command
minus one, or no cutoff when no command triggers. -/
def specCutoff (overflowButtonWidth availableWidth : Int) (hasSecondaryCommands : Bool)
    (sorted : List CommandInfo) : Option Int :=
  (specFirstNegative overflowButtonWidth availableWidth hasSecondaryCommands sorted).map
    (fun i => (sorted.getD i default).priority - 1)

/-- The spec's partition: commands with priority ≤ cutoff stay in the action
area in original declaration order, the rest overflow in original declaration
order; with no cutoff every primary command stays in the action area. -/
def specPrimaryCommandsLocation (overflowButtonWidth availableWidth : Int)
    (hasSecondaryCommands : Bool) (commandsInfo : List CommandInfo) :
    List Command × List Command :=
  let sorted := sortByPriority commandsInfo
  match specCutoff overflowButtonWidth availableWidth hasSecondaryCommands sorted with
  | none => (commandsInfo.map (·.command), [])
  | some m =>
    ((commandsInfo.filter (fun ci => ci.priority ≤ m)).map (·.command),
     (commandsInfo.filter (fun ci => !(ci.priority ≤ m : Bool))).map (·.command))

end CommandingSurface

namespace CommandingSurface

theorem head_reserve (obw : Int) (hs : Bool) (rest : List CommandInfo) :
    specReserve obw hs (rest.length + 1) 0 = (if hs || !rest.isEmpty then obw else 0) := by
  cases hs <;> cases rest <;> simp [specReserve]

theorem specRemaining_zero (obw avail : Int) (hs : Bool) (c : CommandInfo)
    (rest : List CommandInfo) :
    specRemaining obw avail hs (c :: rest) 0 =
      avail - c.width - (if hs || !rest.isEmpty then obw else 0) := by
  simp [specRemaining, sumWidths, head_reserve]

theorem specRemaining_succ (obw avail : Int) (hs : Bool) (c : CommandInfo)
    (rest : List CommandInfo) (i : Nat) :
    specRemaining obw avail hs (c :: rest) (i + 1) =
      specRemaining obw (avail - c.width) hs rest i := by
  simp only [specRemaining, sumWidths, specReserve, List.take_succ_cons, List.map_cons,
    List.sum_cons, List.length_cons, add_left_inj]
  ring_nf

theorem specCutoff_nil (obw avail : Int) (hs : Bool) : specCutoff obw avail hs [] = none := rfl

theorem specCutoff_cons (obw avail : Int) (hs : Bool) (c : CommandInfo)
    (rest : List CommandInfo) :
    specCutoff obw avail hs (c :: rest) =
      if avail - c.width - (if hs || !rest.isEmpty then obw else 0) < 0 then
        some (c.priority - 1)
      else specCutoff obw (avail - c.width) hs rest := by
  unfold specCutoff specFirstNegative
  rw [List.length_cons, List.range_succ_eq_map]
  by_cases h0 : specRemaining obw avail hs (c :: rest) 0 < 0
  · have h0' : avail - c.width - (if hs || !rest.isEmpty then obw else 0) < 0 := by
      rw [specRemaining_zero] at h0; exact h0
    rw [List.find?_cons_of_pos _ (by simp [h0]), if_pos h0']
    simp
  · have h0' : ¬ avail - c.width - (if hs || !rest.isEmpty then obw else 0) < 0 := by
      rw [specRemaining_zero] at h0; exact h0
    rw [List.find?_cons_of_neg _ (by simp [h0]), if_neg h0', List.find?_map, Option.map_map]
    have hcomp : ((fun i => decide (specRemaining obw avail hs (c :: rest) i < 0)) ∘ Nat.succ)
        = fun i => decide (specRemaining obw (avail - c.width) hs rest i < 0) := by
      funext i
      simp [Function.comp, specRemaining_succ]
    rw [hcomp]
    congr 1

theorem findCutoff_eq_specCutoff (obw : Int) (hs : Bool) :
    ∀ (l : List CommandInfo) (avail : Int),
      findCutoff obw hs avail l = specCutoff obw avail hs l
  | [], _ => by simp [findCutoff, specCutoff_nil]
  | c :: rest, avail => by
    rw [specCutoff_cons]
    show (if avail - c.width - (if hs || !rest.isEmpty then obw else 0) < 0 then
        some (c.priority - 1)
      else findCutoff obw hs (avail - c.width) rest) = _
    by_cases h : avail - c.width - (if hs || !rest.isEmpty then obw else 0) < 0
    · rw [if_pos h, if_pos h]
    · rw [if_neg h, if_neg h]
      exact findCutoff_eq_specCutoff obw hs rest (avail - c.width)

theorem getCommandsInfoRev_width (gw : Command → Int) :
    ∀ (counter : Int) (revCmds : List Command) (ci : CommandInfo),
      ci ∈ getCommandsInfoRev gw counter revCmds →
      ci.width = if ci.command.displayNone then 0 else gw ci.command
  | _, [], _, h => by simp [getCommandsInfoRev] at h
  | counter, c :: rest, ci, h => by
    unfold getCommandsInfoRev at h
    rw [List.mem_append] at h
    rcases h with h | h
    · exact getCommandsInfoRev_width gw _ rest ci h
    · simp only [List.mem_singleton] at h
      subst h
      rfl

/-- C1: For every ordered list of primary commands with assigned priorities and
measured widths (a command whose element is currently hidden contributes width
0), the partition walks a copy of the list sorted ascending by priority
accumulating consumed width, reserving the overflow-button width at each step
unless the command being evaluated is the last one and no secondary commands
exist; the first command at which remaining width would go negative fixes a
`maxPriority` cutoff at that command's priority minus 1, and the result places
exactly the commands with priority ≤ cutoff in the action area in original
declaration order and all others in the overflow area in original declaration
order; if no command triggers the cutoff, every primary command stays in the
action area.  (`specPrimaryCommandsLocation` transcribes this walk; the second
conjunct is the hidden-commands-contribute-width-0 clause of
`_getCommandsInfo`.) -/
theorem claim_C1 :
    (∀ (overflowButtonWidth availableWidth : Int) (hasSecondaryCommands : Bool)
        (commandsInfo : List CommandInfo),
      getPrimaryCommandsLocation overflowButtonWidth availableWidth hasSecondaryCommands
          commandsInfo =
        specPrimaryCommandsLocation overflowButtonWidth availableWidth hasSecondaryCommands
          commandsInfo) ∧
    (∀ (gw : Command → Int) (cmds : List Command) (ci : CommandInfo),
      ci ∈ getCommandsInfo gw cmds → ci.command.displayNone = true → ci.width = 0) := by
  constructor
  · intro obw avail hs commandsInfo
    simp only [getPrimaryCommandsLocation, specPrimaryCommandsLocation]
    rw [findCutoff_eq_specCutoff]
    cases hcut : specCutoff obw avail hs (sortByPriority commandsInfo) with
    | none => simp [cutoffOK]
    | some m => simp [cutoffOK]
  · intro gw cmds ci hmem hdisp
    have hw := getCommandsInfoRev_width gw 0 cmds.reverse ci hmem
    rw [hw, hdisp]
    simp

theorem claim_C1_witness :
    (getPrimaryCommandsLocation 32 204 false
        (getCommandsInfo (fun _ => 68) [⟨none, false, 0⟩, ⟨none, false, 1⟩]) =
      specPrimaryCommandsLocation 32 204 false
        (getCommandsInfo (fun _ => 68) [⟨none, false, 0⟩, ⟨none, false, 1⟩])) ∧
    (⟨⟨none, true, 7⟩, 0, 0⟩ : CommandInfo).width = 0 :=
  ⟨claim_C1.1 32 204 false _,
   claim_C1.2 (fun _ => 68) [⟨none, true, 7⟩] ⟨⟨none, true, 7⟩, 0, 0⟩ (by decide) (by decide)⟩

/-- Number of commands in `l` whose `priority` property is absent. -/
def numUnprioritized (l : List Command) : Int :=
  ((l.filter (fun c => c.priority?.isNone)).length : Int)

theorem getCommandsInfoRev_length (gw : Command → Int) :
    ∀ (counter : Int) (revCmds : List Command),
      (getCommandsInfoRev gw counter revCmds).length = revCmds.length
  | _, [] => rfl
  | counter, c :: rest => by
    unfold getCommandsInfoRev
    rw [List.length_append, getCommandsInfoRev_length gw _ rest]
    simp

theorem getCommandsInfoRev_append_singleton (gw : Command → Int) :
    ∀ (counter : Int) (rl : List Command) (c : Command),
      getCommandsInfoRev gw counter (rl ++ [c]) =
        ⟨c, if c.displayNone then 0 else gw c,
          match c.priority? with
          | some p => p
          | none => counter - numUnprioritized rl⟩ :: getCommandsInfoRev gw counter rl
  | counter, [], c => by
    cases hp : c.priority? <;>
      simp [getCommandsInfoRev, numUnprioritized, hp]
  | counter, d :: rl', c => by
    have ih := getCommandsInfoRev_append_singleton gw
      (match d.priority? with | none => counter - 1 | some _ => counter) rl' c
    simp only [List.cons_append, getCommandsInfoRev, List.append_eq]
    rw [ih]
    cases hp : c.priority? <;> cases hd : d.priority? <;>
      simp [numUnprioritized, hd, hp, List.filter_cons] <;>
      ring_nf

theorem getCommandsInfo_cons (gw : Command → Int) (c : Command) (cmds : List Command) :
    getCommandsInfo gw (c :: cmds) =
      ⟨c, if c.displayNone then 0 else gw c,
        match c.priority? with
        | some p => p
        | none => -numUnprioritized cmds⟩ :: getCommandsInfo gw cmds := by
  unfold getCommandsInfo
  rw [List.reverse_cons, getCommandsInfoRev_append_singleton]
  have hrev : numUnprioritized cmds.reverse = numUnprioritized cmds := by
    simp [numUnprioritized, List.filter_reverse]
  cases hp : c.priority? <;> simp [hrev]

theorem getCommandsInfo_length (gw : Command → Int) (cmds : List Command) :
    (getCommandsInfo gw cmds).length = cmds.length := by
  unfold getCommandsInfo
  rw [getCommandsInfoRev_length, List.length_reverse]

/-- C4 (amended): walking the primary list back to front assigns the
consecutive non-positive integers 0, −1, −2, … to the commands lacking an
explicit priority (the first synthesized value is 0, not a negative integer),
so a command's effective priority is its explicit `priority` when present and
otherwise minus the number of unprioritized commands declared after it; the
most-recently-declared unprioritized command receives the highest synthesized
priority. -/
theorem claim_C4 (gw : Command → Int) :
    ∀ (cmds : List Command) (i : Nat), i < cmds.length →
      (getCommandsInfo gw cmds).length = cmds.length ∧
      ((getCommandsInfo gw cmds).getD i default).command = cmds.getD i ⟨none, false, 0⟩ ∧
      ((getCommandsInfo gw cmds).getD i default).priority =
        (match (cmds.getD i ⟨none, false, 0⟩).priority? with
         | some p => p
         | none => -numUnprioritized (cmds.drop (i + 1)))
  | [], i, h => absurd h (by simp)
  | c :: cmds, 0, _ => by
    rw [getCommandsInfo_cons]
    refine ⟨by simp [getCommandsInfo_length], by simp, ?_⟩
    cases hp : c.priority? <;> simp [hp]
  | c :: cmds, i + 1, h => by
    rw [getCommandsInfo_cons]
    have ih := claim_C4 gw cmds i (by simpa using h)
    refine ⟨by simp [getCommandsInfo_length], ?_, ?_⟩
    · simpa using ih.2.1
    · simpa using ih.2.2

/-- The C4 claim as stated is false: with a single primary command lacking an
explicit priority, the synthesized priority is `0`, which is not a negative
integer. -/
theorem claim_C4_counterexample :
    ¬ (∀ ci ∈ getCommandsInfo (fun _ => (68 : Int)) [⟨none, false, 0⟩],
        ci.command.priority? = none → ci.priority < 0) := by
  decide

theorem claim_C4_witness :
    ((getCommandsInfo (fun _ => (68 : Int))
        [⟨none, false, 0⟩, ⟨some 5, false, 1⟩, ⟨none, false, 2⟩]).getD 0 default).priority
      = -1 := by
  have h := claim_C4 (fun _ => (68 : Int))
    [⟨none, false, 0⟩, ⟨some 5, false, 1⟩, ⟨none, false, 2⟩] 0 (by decide)
  rw [h.2.2]
  decide

/-- `_layoutCommands`: `showOverflowButton = (overflowCommands.length > 0 ||
this._secondaryCommands.length > 0)`; the partition is invoked with
`hasSecondaryCommands = this._secondaryCommands.length > 0`.  The overflow
button element is hidden (`display = "none"`) exactly when this is `false`. -/
def showOverflowButton (overflowButtonWidth availableWidth : Int)
    (secondaryCommandsLength : Nat) (commandsInfo : List CommandInfo) : Bool :=
  let overflowCommands := (getPrimaryCommandsLocation overflowButtonWidth availableWidth
    (decide (0 < secondaryCommandsLength)) commandsInfo).2
  decide (0 < overflowCommands.length) || decide (0 < secondaryCommandsLength)

theorem sumWidths_nonneg (l : List CommandInfo) (h : ∀ ci ∈ l, 0 ≤ ci.width) :
    0 ≤ sumWidths l := by
  apply List.sum_nonneg
  intro x hx
  rw [List.mem_map] at hx
  obtain ⟨ci, hci, rfl⟩ := hx
  exact h ci hci

theorem findCutoff_none_of_fits (obw : Int) (hs : Bool) (hobw : 0 ≤ obw) :
    ∀ (l : List CommandInfo) (avail : Int), (∀ ci ∈ l, 0 ≤ ci.width) →
      sumWidths l + obw ≤ avail → findCutoff obw hs avail l = none
  | [], _, _, _ => rfl
  | c :: rest, avail, hw, hfits => by
    have hsum : sumWidths (c :: rest) = c.width + sumWidths rest := by
      simp [sumWidths]
    have hrest : 0 ≤ sumWidths rest :=
      sumWidths_nonneg rest (fun ci hci => hw ci (List.mem_cons_of_mem c hci))
    have hspace : (if hs || !rest.isEmpty then obw else 0) ≤ obw := by
      split <;> omega
    have hnotrig : ¬ avail - c.width - (if hs || !rest.isEmpty then obw else 0) < 0 := by
      rw [hsum] at hfits
      omega
    show (if avail - c.width - (if hs || !rest.isEmpty then obw else 0) < 0 then
        some (c.priority - 1)
      else findCutoff obw hs (avail - c.width) rest) = none
    rw [if_neg hnotrig]
    apply findCutoff_none_of_fits obw hs hobw rest (avail - c.width)
      (fun ci hci => hw ci (List.mem_cons_of_mem c hci))
    rw [hsum] at hfits
    omega

theorem sumWidths_perm {l l' : List CommandInfo} (h : l.Perm l') :
    sumWidths l = sumWidths l' :=
  List.Perm.sum_eq (List.Perm.map _ h)

/-- The C2 claim as stated is false: two primary commands of widths 18 and 2
(priorities 1 and 2), overflow-button width 5, no secondary commands (so the
claim's "required overflow-button width" is 0) and available width 20 satisfy
18 + 2 + 0 ≤ 20, yet both commands are sent to the overflow area and the
overflow button is shown: while evaluating the non-last sorted command the
code still reserves the overflow-button width, and 20 − 18 − 5 < 0 fixes the
cutoff below every priority. -/
theorem claim_C2_counterexample :
    sumWidths [⟨⟨some 1, false, 0⟩, 18, 1⟩, ⟨⟨some 2, false, 1⟩, 2, 2⟩] + 0 ≤ 20 ∧
    (getPrimaryCommandsLocation 5 20 (decide (0 < (0 : Nat)))
        [⟨⟨some 1, false, 0⟩, 18, 1⟩, ⟨⟨some 2, false, 1⟩, 2, 2⟩]).2 ≠ [] ∧
    showOverflowButton 5 20 0 [⟨⟨some 1, false, 0⟩, 18, 1⟩, ⟨⟨some 2, false, 1⟩, 2, 2⟩]
      = true := by
  decide

/-- C2 (amended): for every command set and available width such that the
total width of all primary commands **plus the overflow-button width** is at
most the available width (measured widths and the overflow-button width being
non-negative), the partition sends zero primary commands to the overflow
area, and the overflow button is hidden if and only if no secondary commands
exist.  (The claim's weaker premise that lets the reserved width be zero when
no secondary commands exist is refuted by `claim_C2_counterexample`.) -/
theorem claim_C2 (overflowButtonWidth availableWidth : Int) (secondaryCommandsLength : Nat)
    (commandsInfo : List CommandInfo)
    (hobw : 0 ≤ overflowButtonWidth)
    (hw : ∀ ci ∈ commandsInfo, 0 ≤ ci.width)
    (hfits : sumWidths commandsInfo + overflowButtonWidth ≤ availableWidth) :
    (getPrimaryCommandsLocation overflowButtonWidth availableWidth
      (decide (0 < secondaryCommandsLength)) commandsInfo).2 = [] ∧
    (showOverflowButton overflowButtonWidth availableWidth secondaryCommandsLength
        commandsInfo = false ↔ secondaryCommandsLength = 0) := by
  have hperm : (sortByPriority commandsInfo).Perm commandsInfo :=
    List.perm_insertionSort priorityLE commandsInfo
  have hw' : ∀ ci ∈ sortByPriority commandsInfo, 0 ≤ ci.width :=
    fun ci hci => hw ci (hperm.mem_iff.mp hci)
  have hfits' : sumWidths (sortByPriority commandsInfo) + overflowButtonWidth
      ≤ availableWidth := by
    rw [sumWidths_perm hperm]
    exact hfits
  have hcut : findCutoff overflowButtonWidth (decide (0 < secondaryCommandsLength))
      availableWidth (sortByPriority commandsInfo) = none :=
    findCutoff_none_of_fits _ _ hobw _ _ hw' hfits'
  have hover : (getPrimaryCommandsLocation overflowButtonWidth availableWidth
      (decide (0 < secondaryCommandsLength)) commandsInfo).2 = [] := by
    simp only [getPrimaryCommandsLocation, hcut]
    simp [cutoffOK]
  refine ⟨hover, ?_⟩
  simp only [showOverflowButton, hover]
  cases Nat.eq_zero_or_pos secondaryCommandsLength with
  | inl h0 => simp [h0]
  | inr hpos => simp [hpos, Nat.pos_iff_ne_zero.mp hpos]

theorem claim_C2_witness :
    (getPrimaryCommandsLocation 32 300 (decide (0 < (2 : Nat)))
        [⟨⟨some 1, false, 0⟩, 68, 1⟩]).2 = [] ∧
    (showOverflowButton 32 300 2 [⟨⟨some 1, false, 0⟩, 68, 1⟩] = false ↔ (2 : Nat) = 0) :=
  claim_C2 32 300 2 [⟨⟨some 1, false, 0⟩, 68, 1⟩] (by decide) (by decide) (by decide)

theorem findCutoff_some_mem (obw : Int) (hs : Bool) :
    ∀ (l : List CommandInfo) (avail m : Int),
      findCutoff obw hs avail l = some m → ∃ ci ∈ l, m = ci.priority - 1
  | [], _, _, h => by simp [findCutoff] at h
  | c :: rest, avail, m, h => by
    by_cases htrig : avail - c.width - (if hs || !rest.isEmpty then obw else 0) < 0
    · refine ⟨c, List.mem_cons_self c rest, ?_⟩
      have : (if avail - c.width - (if hs || !rest.isEmpty then obw else 0) < 0 then
          some (c.priority - 1)
        else findCutoff obw hs (avail - c.width) rest) = some m := h
      rw [if_pos htrig] at this
      exact (Option.some.injEq _ _ ▸ this).symm
    · have : findCutoff obw hs (avail - c.width) rest = some m := by
        have heq : (if avail - c.width - (if hs || !rest.isEmpty then obw else 0) < 0 then
            some (c.priority - 1)
          else findCutoff obw hs (avail - c.width) rest) = some m := h
        rwa [if_neg htrig] at heq
      obtain ⟨ci, hci, hm⟩ := findCutoff_some_mem obw hs rest (avail - c.width) m this
      exact ⟨ci, List.mem_cons_of_mem c hci, hm⟩

theorem findCutoff_mono (obw : Int) (hs : Bool) :
    ∀ (l : List CommandInfo), l.Pairwise priorityLE →
      ∀ (avail₁ avail₂ m₂ : Int), avail₁ ≤ avail₂ →
        findCutoff obw hs avail₂ l = some m₂ →
        ∃ m₁, findCutoff obw hs avail₁ l = some m₁ ∧ m₁ ≤ m₂
  | [], _, _, _, _, _, h => by simp [findCutoff] at h
  | c :: rest, hsorted, avail₁, avail₂, m₂, h12, h => by
    have hpair := List.pairwise_cons.mp hsorted
    by_cases htrig₂ : avail₂ - c.width - (if hs || !rest.isEmpty then obw else 0) < 0
    · have htrig₁ : avail₁ - c.width - (if hs || !rest.isEmpty then obw else 0) < 0 := by
        omega
      have hm₂ : m₂ = c.priority - 1 := by
        have heq : (if avail₂ - c.width - (if hs || !rest.isEmpty then obw else 0) < 0 then
            some (c.priority - 1)
          else findCutoff obw hs (avail₂ - c.width) rest) = some m₂ := h
        rw [if_pos htrig₂] at heq
        exact (Option.some.injEq _ _ ▸ heq).symm
      refine ⟨c.priority - 1, ?_, by omega⟩
      show (if avail₁ - c.width - (if hs || !rest.isEmpty then obw else 0) < 0 then
          some (c.priority - 1)
        else findCutoff obw hs (avail₁ - c.width) rest) = some (c.priority - 1)
      rw [if_pos htrig₁]
    · have hrec₂ : findCutoff obw hs (avail₂ - c.width) rest = some m₂ := by
        have heq : (if avail₂ - c.width - (if hs || !rest.isEmpty then obw else 0) < 0 then
            some (c.priority - 1)
          else findCutoff obw hs (avail₂ - c.width) rest) = some m₂ := h
        rwa [if_neg htrig₂] at heq
      by_cases htrig₁ : avail₁ - c.width - (if hs || !rest.isEmpty then obw else 0) < 0
      · refine ⟨c.priority - 1, ?_, ?_⟩
        · show (if avail₁ - c.width - (if hs || !rest.isEmpty then obw else 0) < 0 then
              some (c.priority - 1)
            else findCutoff obw hs (avail₁ - c.width) rest) = some (c.priority - 1)
          rw [if_pos htrig₁]
        · obtain ⟨ci, hci, hm⟩ := findCutoff_some_mem obw hs rest (avail₂ - c.width) m₂ hrec₂
          have := hpair.1 ci hci
          unfold priorityLE at this
          omega
      · obtain ⟨m₁, hm₁, hle⟩ := findCutoff_mono obw hs rest hpair.2
          (avail₁ - c.width) (avail₂ - c.width) m₂ (by omega) hrec₂
        refine ⟨m₁, ?_, hle⟩
        show (if avail₁ - c.width - (if hs || !rest.isEmpty then obw else 0) < 0 then
            some (c.priority - 1)
          else findCutoff obw hs (avail₁ - c.width) rest) = some m₁
        rw [if_neg htrig₁]
        exact hm₁

theorem length_filter_mono {α : Type} (p q : α → Bool) (h : ∀ a, p a = true → q a = true) :
    ∀ l : List α, (l.filter p).length ≤ (l.filter q).length
  | [] => Nat.le_refl 0
  | a :: l => by
    have ih := length_filter_mono p q h l
    by_cases hp : p a = true
    · rw [List.filter_cons_of_pos hp, List.filter_cons_of_pos (h a hp)]
      simpa using ih
    · rw [List.filter_cons_of_neg (by simpa using hp)]
      cases hq : q a with
      | true => rw [List.filter_cons_of_pos hq]; simp; omega
      | false => rw [List.filter_cons_of_neg (by simp [hq])]; exact ih

/-- C3: For every fixed ordered list of primary commands with priorities and
widths, and for every pair of available widths `w₁ ≤ w₂`, the number of
primary commands the partition places in the action area at width `w₁` is at
most the number it places there at width `w₂` (the partition is monotone in
available width). -/
theorem claim_C3 (overflowButtonWidth : Int) (hasSecondaryCommands : Bool)
    (commandsInfo : List CommandInfo) (avail₁ avail₂ : Int) (h12 : avail₁ ≤ avail₂) :
    ((getPrimaryCommandsLocation overflowButtonWidth avail₁ hasSecondaryCommands
        commandsInfo).1).length ≤
      ((getPrimaryCommandsLocation overflowButtonWidth avail₂ hasSecondaryCommands
        commandsInfo).1).length := by
  have hsorted : (sortByPriority commandsInfo).Pairwise priorityLE :=
    List.sorted_insertionSort priorityLE commandsInfo
  simp only [getPrimaryCommandsLocation, List.length_map]
  cases hcut2 : findCutoff overflowButtonWidth hasSecondaryCommands avail₂
      (sortByPriority commandsInfo) with
  | none =>
    have h2 : (commandsInfo.filter (fun ci => cutoffOK none ci.priority)).length
        = commandsInfo.length := by
      simp [cutoffOK]
    rw [h2]
    exact List.length_filter_le _ _
  | some m₂ =>
    obtain ⟨m₁, hm₁, hle⟩ := findCutoff_mono overflowButtonWidth hasSecondaryCommands _
      hsorted avail₁ avail₂ m₂ h12 hcut2
    rw [hm₁]
    apply length_filter_mono
    intro ci hci
    simp only [cutoffOK, decide_eq_true_eq] at hci ⊢
    omega

theorem claim_C3_witness :
    ((getPrimaryCommandsLocation 32 100 false [⟨⟨some 1, false, 0⟩, 68, 1⟩]).1).length ≤
      ((getPrimaryCommandsLocation 32 200 false [⟨⟨some 1, false, 0⟩, 68, 1⟩]).1).length :=
  claim_C3 32 false [⟨⟨some 1, false, 0⟩, 68, 1⟩] 100 200 (by decide)

/-- An `ICommandWithType` as consumed by `_hideSeparatorsIfNeeded`: the
command's `type` string and its element's current `style.display` value. -/
structure CommandWithType where
  type : String
  display : String
deriving DecidableEq

instance : Inhabited CommandWithType := ⟨⟨"", ""⟩⟩

/-- `command.element.style.display = "none"`. -/
def hideCommand (c : CommandWithType) : CommandWithType := { c with display := "none" }

/-- The first (`forEach`) pass of `_hideSeparatorsIfNeeded`: `prevType`
starts as `typeSeparator`, and every separator whose predecessor's type is
also `typeSeparator` is hidden — leading and consecutive separators. -/
def hideLeadingAndConsecutive (prevType : String) :
    List CommandWithType → List CommandWithType
  | [] => []
  | c :: rest =>
    (if c.type == typeSeparator && prevType == typeSeparator then hideCommand c else c) ::
      hideLeadingAndConsecutive c.type rest

/-- The second (backward `for`) pass of `_hideSeparatorsIfNeeded`, expressed
on the reversed list: hide separators until the first non-separator. -/
def hideTrailingRev : List CommandWithType → List CommandWithType
  | [] => []
  | c :: rest =>
    if c.type == typeSeparator then hideCommand c :: hideTrailingRev rest
    else c :: rest

/-- The backward `for` pass on the list in its original order. -/
def hideTrailing (commands : List CommandWithType) : List CommandWithType :=
  (hideTrailingRev commands.reverse).reverse

/-- `_hideSeparatorsIfNeeded`: hide leading/consecutive separators, then hide
trailing separators.  Commands are only ever restyled, never removed. -/
def hideSeparatorsIfNeeded (commands : List CommandWithType) : List CommandWithType :=
  hideTrailing (hideLeadingAndConsecutive typeSeparator commands)

theorem hideLeadingAndConsecutive_map_type :
    ∀ (prevType : String) (l : List CommandWithType),
      (hideLeadingAndConsecutive prevType l).map (·.type) = l.map (·.type)
  | _, [] => rfl
  | prevType, c :: rest => by
    unfold hideLeadingAndConsecutive
    rw [List.map_cons, List.map_cons, hideLeadingAndConsecutive_map_type c.type rest]
    congr 1
    split <;> rfl

theorem hideTrailingRev_map_type :
    ∀ l : List CommandWithType, (hideTrailingRev l).map (·.type) = l.map (·.type)
  | [] => rfl
  | c :: rest => by
    unfold hideTrailingRev
    split
    · rw [List.map_cons, List.map_cons, hideTrailingRev_map_type rest]
      simp [hideCommand]
    · rfl

theorem hideTrailing_map_type (l : List CommandWithType) :
    (hideTrailing l).map (·.type) = l.map (·.type) := by
  unfold hideTrailing
  rw [List.map_reverse, hideTrailingRev_map_type, List.map_reverse, List.reverse_reverse]

theorem hideSeparatorsIfNeeded_map_type (l : List CommandWithType) :
    (hideSeparatorsIfNeeded l).map (·.type) = l.map (·.type) := by
  unfold hideSeparatorsIfNeeded
  rw [hideTrailing_map_type, hideLeadingAndConsecutive_map_type]

theorem hideSeparatorsIfNeeded_length (l : List CommandWithType) :
    (hideSeparatorsIfNeeded l).length = l.length := by
  have h := hideSeparatorsIfNeeded_map_type l
  have := congrArg List.length h
  simpa using this

theorem hideLeadingAndConsecutive_getD :
    ∀ (prevType : String) (l : List CommandWithType) (i : Nat), i < l.length →
      (hideLeadingAndConsecutive prevType l).getD i default =
        (if (l.getD i default).type == typeSeparator &&
            ((if i = 0 then prevType else (l.getD (i - 1) default).type) == typeSeparator)
         then hideCommand (l.getD i default) else l.getD i default)
  | _, [], i, h => absurd h (by simp)
  | prevType, c :: rest, 0, _ => by
    simp [hideLeadingAndConsecutive]
  | prevType, c :: rest, j + 1, h => by
    have ih := hideLeadingAndConsecutive_getD c.type rest j (by simpa using h)
    unfold hideLeadingAndConsecutive
    rw [List.getD_cons_succ, ih]
    cases j with
    | zero => simp
    | succ k => simp

theorem hideTrailing_length (l : List CommandWithType) :
    (hideTrailing l).length = l.length := by
  have h := congrArg List.length (hideTrailing_map_type l)
  simpa using h

theorem hideTrailing_concat (l : List CommandWithType) (c : CommandWithType) :
    hideTrailing (l ++ [c]) =
      if c.type == typeSeparator then hideTrailing l ++ [hideCommand c] else l ++ [c] := by
  cases hc : c.type == typeSeparator <;>
    simp [hideTrailing, hideTrailingRev, hc, List.reverse_append]

theorem hideTrailing_getD (l : List CommandWithType) :
    ∀ (i : Nat), i < l.length →
      (hideTrailing l).getD i default =
        if (l.drop i).all (fun x => x.type == typeSeparator)
        then hideCommand (l.getD i default) else l.getD i default := by
  induction l using List.reverseRecOn with
  | nil => intro i h; simp at h
  | append_singleton l c ih =>
    intro i h
    rw [hideTrailing_concat]
    by_cases hc : (c.type == typeSeparator) = true
    · rw [if_pos hc]
      rcases Nat.lt_or_ge i l.length with hi | hi
      · rw [List.getD_append _ _ _ _ (by rwa [hideTrailing_length]), ih i hi,
          List.getD_append _ _ _ _ hi, List.drop_append_of_le_length (le_of_lt hi),
          List.all_append]
        simp [hc]
      · have hi' : i = l.length := by
          have : i < l.length + 1 := by simpa using h
          omega
        subst hi'
        rw [List.getD_append_right _ _ _ _ (by rw [hideTrailing_length]),
          hideTrailing_length, Nat.sub_self,
          List.getD_append_right _ _ _ _ (le_refl _), Nat.sub_self,
          List.drop_append_of_le_length (le_refl _), List.drop_length]
        simp [hc]
    · rw [if_neg hc]
      have hi : i ≤ l.length := by
        have : i < l.length + 1 := by simpa using h
        omega
      rw [List.drop_append_of_le_length hi, List.all_append]
      simp [hc]

theorem map_type_eq_all_sep_eq :
    ∀ {x y : List CommandWithType}, x.map (·.type) = y.map (·.type) →
      x.all (fun c => c.type == typeSeparator) = y.all (fun c => c.type == typeSeparator)
  | [], y, h => by cases y <;> simp_all
  | a :: x, y, h => by
    cases y with
    | nil => simp at h
    | cons b y =>
      simp only [List.map_cons, List.cons.injEq] at h
      simp [List.all_cons, h.1, map_type_eq_all_sep_eq h.2]

theorem map_type_eq_drop_all_sep_eq {x y : List CommandWithType}
    (h : x.map (·.type) = y.map (·.type)) (i : Nat) :
    (x.drop i).all (fun c => c.type == typeSeparator) =
      (y.drop i).all (fun c => c.type == typeSeparator) := by
  apply map_type_eq_all_sep_eq
  rw [List.map_drop, List.map_drop, h]

theorem take_all_getD (l : List CommandWithType) (p : CommandWithType → Bool) (i j : Nat)
    (hall : (l.take i).all p = true) (hj : j < i) (hjl : j < l.length) :
    p (l.getD j default) = true := by
  rw [List.getD_eq_getElem _ _ hjl]
  have hj' : j < (l.take i).length := by simp; omega
  have hmem := List.all_eq_true.mp hall ((l.take i)[j]) (List.getElem_mem hj')
  rwa [List.getElem_take] at hmem

theorem drop_all_cons_sep (l : List CommandWithType) (i : Nat) (h : i < l.length) :
    (l.drop i).all (fun c => c.type == typeSeparator) =
      (((l.getD i default).type == typeSeparator) &&
        (l.drop (i + 1)).all (fun c => c.type == typeSeparator)) := by
  rw [List.drop_eq_getElem_cons h, List.all_cons, List.getD_eq_getElem _ _ h]

/-- C5: For every projected menu-entry list, every separator entry that is
leading (preceded only by separators), trailing (followed only by
separators), or immediately preceded by another separator has its display set
to `"none"` but is never removed from the list (the output has the same
length and the same types position-wise), and an internal single separator
(neither leading, trailing, nor consecutive with another separator) keeps its
display. -/
theorem claim_C5 (l : List CommandWithType) (i : Nat) (h : i < l.length) :
    (hideSeparatorsIfNeeded l).length = l.length ∧
    ((hideSeparatorsIfNeeded l).getD i default).type = (l.getD i default).type ∧
    ((l.getD i default).type = typeSeparator →
      ((l.take i).all (fun c => c.type == typeSeparator) = true ∨
       (l.drop (i + 1)).all (fun c => c.type == typeSeparator) = true ∨
       (0 < i ∧ (l.getD (i - 1) default).type = typeSeparator)) →
      ((hideSeparatorsIfNeeded l).getD i default).display = "none") ∧
    ((l.getD i default).type = typeSeparator →
      ¬ ((l.take i).all (fun c => c.type == typeSeparator) = true) →
      ¬ ((l.drop (i + 1)).all (fun c => c.type == typeSeparator) = true) →
      ¬ (0 < i ∧ (l.getD (i - 1) default).type = typeSeparator) →
      ¬ (i + 1 < l.length ∧ (l.getD (i + 1) default).type = typeSeparator) →
      ((hideSeparatorsIfNeeded l).getD i default).display = (l.getD i default).display) := by
  have hmap : (hideLeadingAndConsecutive typeSeparator l).map (·.type) = l.map (·.type) :=
    hideLeadingAndConsecutive_map_type _ l
  have hp1len : (hideLeadingAndConsecutive typeSeparator l).length = l.length := by
    simpa using congrArg List.length hmap
  have hip1 : i < (hideLeadingAndConsecutive typeSeparator l).length := by omega
  have houtD : (hideSeparatorsIfNeeded l).getD i default =
      if ((hideLeadingAndConsecutive typeSeparator l).drop i).all
          (fun x => x.type == typeSeparator)
      then hideCommand ((hideLeadingAndConsecutive typeSeparator l).getD i default)
      else (hideLeadingAndConsecutive typeSeparator l).getD i default :=
    hideTrailing_getD (hideLeadingAndConsecutive typeSeparator l) i hip1
  have hp1D := hideLeadingAndConsecutive_getD typeSeparator l i h
  have hcond : ((hideLeadingAndConsecutive typeSeparator l).drop i).all
        (fun c => c.type == typeSeparator)
      = (l.drop i).all (fun c => c.type == typeSeparator) :=
    map_type_eq_drop_all_sep_eq hmap i
  have hp1_hidden : (l.getD i default).type = typeSeparator →
      (if i = 0 then typeSeparator else (l.getD (i - 1) default).type) = typeSeparator →
      (hideLeadingAndConsecutive typeSeparator l).getD i default
        = hideCommand (l.getD i default) := by
    intro h1 h2
    rw [hp1D, if_pos]
    rw [Bool.and_eq_true, beq_iff_eq, beq_iff_eq]
    exact ⟨h1, h2⟩
  have hp1_shown : ¬ ((l.getD i default).type = typeSeparator ∧
        (if i = 0 then typeSeparator else (l.getD (i - 1) default).type) = typeSeparator) →
      (hideLeadingAndConsecutive typeSeparator l).getD i default = l.getD i default := by
    intro hn
    rw [hp1D, if_neg]
    rw [Bool.and_eq_true, beq_iff_eq, beq_iff_eq]
    exact hn
  have hout_hidden : ((l.drop i).all (fun c => c.type == typeSeparator)) = true →
      (hideSeparatorsIfNeeded l).getD i default =
        hideCommand ((hideLeadingAndConsecutive typeSeparator l).getD i default) := by
    intro hd
    rw [houtD, hcond, if_pos hd]
  have hout_shown : ((l.drop i).all (fun c => c.type == typeSeparator)) = false →
      (hideSeparatorsIfNeeded l).getD i default =
        (hideLeadingAndConsecutive typeSeparator l).getD i default := by
    intro hd
    rw [houtD, hcond, if_neg (by rw [hd]; exact Bool.false_ne_true)]
  have hp1type : ((hideLeadingAndConsecutive typeSeparator l).getD i default).type
      = (l.getD i default).type := by
    rw [hp1D]
    by_cases hc : ((l.getD i default).type == typeSeparator &&
        ((if i = 0 then typeSeparator else (l.getD (i - 1) default).type) == typeSeparator))
        = true
    · rw [if_pos hc]; rfl
    · rw [if_neg hc]
  refine ⟨hideSeparatorsIfNeeded_length l, ?_, ?_, ?_⟩
  · by_cases hd : ((l.drop i).all (fun c => c.type == typeSeparator)) = true
    · rw [hout_hidden hd]; exact hp1type
    · rw [Bool.not_eq_true] at hd
      rw [hout_shown hd]; exact hp1type
  · intro htype hcase
    have hdisplay : ∀ x, (hideSeparatorsIfNeeded l).getD i default = hideCommand x →
        ((hideSeparatorsIfNeeded l).getD i default).display = "none" := by
      intro x hx; rw [hx]; rfl
    rcases hcase with hlead | htrail | hprec
    · have hprev : (if i = 0 then typeSeparator else (l.getD (i - 1) default).type)
          = typeSeparator := by
        by_cases hi0 : i = 0
        · rw [if_pos hi0]
        · rw [if_neg hi0]
          have hj := take_all_getD l (fun c => c.type == typeSeparator) i (i - 1) hlead
            (by omega) (by omega)
          rwa [beq_iff_eq] at hj
      have hp1eq := hp1_hidden htype hprev
      by_cases hd : ((l.drop i).all (fun c => c.type == typeSeparator)) = true
      · exact hdisplay _ (hout_hidden hd)
      · rw [Bool.not_eq_true] at hd
        exact hdisplay _ ((hout_shown hd).trans hp1eq)
    · have hdrop : (l.drop i).all (fun c => c.type == typeSeparator) = true := by
        rw [drop_all_cons_sep l i h, Bool.and_eq_true]
        exact ⟨by rwa [beq_iff_eq], htrail⟩
      exact hdisplay _ (hout_hidden hdrop)
    · have hprev : (if i = 0 then typeSeparator else (l.getD (i - 1) default).type)
          = typeSeparator := by
        rw [if_neg (by omega : ¬ i = 0)]
        exact hprec.2
      have hp1eq := hp1_hidden htype hprev
      by_cases hd : ((l.drop i).all (fun c => c.type == typeSeparator)) = true
      · exact hdisplay _ (hout_hidden hd)
      · rw [Bool.not_eq_true] at hd
        exact hdisplay _ ((hout_shown hd).trans hp1eq)
  · intro htype hnlead hntrail hnprec _hncons
    have hi0 : 0 < i := by
      rcases Nat.eq_zero_or_pos i with h0 | h0
      · subst h0
        exact absurd rfl hnlead
      · exact h0
    have hp1eq : (hideLeadingAndConsecutive typeSeparator l).getD i default
        = l.getD i default := by
      apply hp1_shown
      rintro ⟨-, hp⟩
      rw [if_neg (by omega : ¬ i = 0)] at hp
      exact hnprec ⟨hi0, hp⟩
    have hdropfalse : (l.drop i).all (fun c => c.type == typeSeparator) = false := by
      cases hx : (l.drop (i + 1)).all (fun c => c.type == typeSeparator) with
      | true => exact absurd hx hntrail
      | false => rw [drop_all_cons_sep l i h, hx, Bool.and_false]
    rw [hout_shown hdropfalse, hp1eq]

theorem claim_C5_witness :
    (hideSeparatorsIfNeeded [⟨typeSeparator, ""⟩, ⟨typeButton, ""⟩]).length = 2 ∧
    ((hideSeparatorsIfNeeded [⟨typeSeparator, ""⟩, ⟨typeButton, ""⟩]).getD 0 default).display
      = "none" :=
  ⟨(claim_C5 [⟨typeSeparator, ""⟩, ⟨typeButton, ""⟩] 0 (by decide)).1,
   (claim_C5 [⟨typeSeparator, ""⟩, ⟨typeButton, ""⟩] 0 (by decide)).2.2.1 (by decide)
     (Or.inl (by decide))⟩

/-- The three invalidation entry points of the layout pipeline
(`_dataDirty`, `_meaurementsDirty`, `_layoutDirty`). -/
inductive DirtyRequest
  | data
  | measurements
  | layout
deriving DecidableEq

/-- The stage each entry point requests: data change → `newDataStage` (3),
measurement invalidation → `measuringStage` (2), geometry change →
`layoutStage` (1). -/
def requestStage : DirtyRequest → Nat
  | .data => newDataStage
  | .measurements => measuringStage
  | .layout => layoutStage

/-- `this._nextLayoutStage = Math.max(stage, this._nextLayoutStage)` — the
common body of the three dirty methods. -/
def applyDirty (r : DirtyRequest) (nextLayoutStage : Nat) : Nat :=
  max (requestStage r) nextLayoutStage

/-- Pending stage after a sequence of dirty requests starting from `s`. -/
def runRequests (s : Nat) (reqs : List DirtyRequest) : Nat :=
  reqs.foldl (fun st r => applyDirty r st) s

theorem runRequests_start_le : ∀ (reqs : List DirtyRequest) (s : Nat), s ≤ runRequests s reqs
  | [], s => le_refl s
  | r :: rs, s =>
    le_trans (Nat.le_max_right (requestStage r) s) (runRequests_start_le rs _)

theorem runRequests_request_le :
    ∀ (reqs : List DirtyRequest) (s : Nat) (r : DirtyRequest), r ∈ reqs →
      requestStage r ≤ runRequests s reqs
  | [], _, _, hmem => absurd hmem (by simp)
  | q :: rs, s, r, hmem => by
    rcases List.mem_cons.mp hmem with rfl | hmem'
    · exact le_trans (Nat.le_max_left (requestStage r) s) (runRequests_start_le rs _)
    · exact runRequests_request_le rs _ r hmem'

theorem runRequests_attained :
    ∀ (reqs : List DirtyRequest) (s : Nat),
      runRequests s reqs = s ∨ ∃ r ∈ reqs, requestStage r = runRequests s reqs
  | [], s => Or.inl rfl
  | q :: rs, s => by
    rcases runRequests_attained rs (applyDirty q s) with heq | ⟨r, hr, heq⟩
    · rcases max_choice (requestStage q) s with hmax | hmax
      · right
        refine ⟨q, List.mem_cons_self q rs, ?_⟩
        show requestStage q = runRequests (applyDirty q s) rs
        rw [heq]
        exact hmax.symm
      · left
        show runRequests (applyDirty q s) rs = s
        rw [heq]
        exact hmax
    · exact Or.inr ⟨r, List.mem_cons_of_mem q hr, heq⟩

/-- C6: at every point between pipeline runs, the pending stage equals the
maximum of all stages requested since the last full drain to Idle: it is an
upper bound of every requested stage, it is attained (it is Idle or one of
the requested stages), and every stage request sets the pending stage to the
maximum of the requested stage and the current pending stage, so pending
work only escalates and never downgrades until executed. -/
theorem claim_C6 (reqs : List DirtyRequest) :
    (∀ r ∈ reqs, requestStage r ≤ runRequests idleStage reqs) ∧
    (runRequests idleStage reqs = idleStage ∨
      ∃ r ∈ reqs, requestStage r = runRequests idleStage reqs) ∧
    (∀ (s : Nat) (r : DirtyRequest),
      applyDirty r s = max (requestStage r) s ∧ s ≤ applyDirty r s) :=
  ⟨fun r hr => runRequests_request_le reqs idleStage r hr,
   runRequests_attained reqs idleStage,
   fun s r => ⟨rfl, Nat.le_max_right _ s⟩⟩

theorem claim_C6_witness :
    requestStage DirtyRequest.data
      ≤ runRequests idleStage [DirtyRequest.layout, DirtyRequest.data] :=
  (claim_C6 [DirtyRequest.layout, DirtyRequest.data]).1 DirtyRequest.data (by decide)

/-- The `while` loop of `_updateDomImpl_updateCommands`, parameterised by the
results of the three stage actions (`_processNewData`, `_measure`,
`_layoutCommands`).  Returns the final `_nextLayoutStage` together with the
list of stages whose action was executed, in execution order.  The `switch`
advances `nextStage` one stage down before running the stage action; on a
failed action the loop restores `nextStage = currentStage` and breaks.  A
stage value without a `switch` case leaves `okToProceed` false, parking the
loop at that stage. -/
def updateCommandsLoop (okNewData okMeasure okLayout : Bool) : Nat → Nat × List Nat
  | 0 => (0, [])
  | 1 =>
    if okLayout then
      ((updateCommandsLoop okNewData okMeasure okLayout 0).1,
        1 :: (updateCommandsLoop okNewData okMeasure okLayout 0).2)
    else (1, [1])
  | 2 =>
    if okMeasure then
      ((updateCommandsLoop okNewData okMeasure okLayout 1).1,
        2 :: (updateCommandsLoop okNewData okMeasure okLayout 1).2)
    else (2, [2])
  | 3 =>
    if okNewData then
      ((updateCommandsLoop okNewData okMeasure okLayout 2).1,
        3 :: (updateCommandsLoop okNewData okMeasure okLayout 2).2)
    else (3, [3])
  | n + 4 => (n + 4, [n + 4])

/-- Success of the stage action executed at each stage. -/
def stageOk (okNewData okMeasure okLayout : Bool) : Nat → Bool
  | 3 => okNewData
  | 2 => okMeasure
  | 1 => okLayout
  | _ => false

/-- C7: for every pipeline run, stages drain in strict descending order
NewData → Measuring → Layout → Idle (the executed stages start at the pending
stage and descend by exactly one), and if the stage action executed at some
stage reports failure, the run stops immediately (the failed stage is the
last one executed) and the pending stage is set to exactly that failed stage;
if every executed action succeeds the run drains to Idle.  In particular a
measurement failure leaves the pipeline parked at Measuring. -/
theorem claim_C7 (okNewData okMeasure okLayout : Bool) (s : Nat) (hs : s ≤ newDataStage) :
    List.Chain' (fun a b => b + 1 = a)
      (updateCommandsLoop okNewData okMeasure okLayout s).2 ∧
    (0 < s → (updateCommandsLoop okNewData okMeasure okLayout s).2.head? = some s) ∧
    (∀ c ∈ (updateCommandsLoop okNewData okMeasure okLayout s).2,
      stageOk okNewData okMeasure okLayout c = false →
        (updateCommandsLoop okNewData okMeasure okLayout s).1 = c ∧
        (updateCommandsLoop okNewData okMeasure okLayout s).2.getLast? = some c) ∧
    ((∀ c ∈ (updateCommandsLoop okNewData okMeasure okLayout s).2,
        stageOk okNewData okMeasure okLayout c = true) →
      (updateCommandsLoop okNewData okMeasure okLayout s).1 = idleStage) ∧
    (s = newDataStage → okNewData = true → okMeasure = false →
      (updateCommandsLoop okNewData okMeasure okLayout s).1 = measuringStage) := by
  have h4 : s = 0 ∨ s = 1 ∨ s = 2 ∨ s = 3 := by
    simp only [newDataStage] at hs
    omega
  rcases h4 with rfl | rfl | rfl | rfl <;>
    cases okNewData <;> cases okMeasure <;> cases okLayout <;>
      simp [updateCommandsLoop, stageOk, newDataStage, measuringStage, idleStage,
        List.Chain'] <;> decide

theorem claim_C7_witness : (updateCommandsLoop true false true 3).1 = measuringStage :=
  (claim_C7 true false true 3 (by decide)).2.2.2.2 rfl rfl rfl

/-- A primary command as read by `_measure`: its `_uniqueID`, `type`, and the
total width `_ElementUtilities.getTotalWidth` reports for its element while
its display is temporarily forced visible. -/
structure MeasuredCommand where
  uniqueID : Nat
  type : String
  totalWidth : Int
deriving DecidableEq

/-- The `_cachedMeasurements` snapshot. -/
structure Measurements where
  overflowButtonWidth : Int
  separatorWidth : Int
  standardCommandWidth : Int
  contentCommandWidths : List (Nat × Int)
  actionAreaContentBoxWidth : Int
deriving DecidableEq

/-- The DOM facts `_measure` reads: `document.body.contains(this._dom.root)`,
`this._dom.actionArea.offsetWidth`, the overflow button's total width, the
action area's content-box width, and the primary commands. -/
structure MeasureEnv where
  bodyContainsRoot : Bool
  actionAreaOffsetWidth : Int
  overflowButtonTotalWidth : Int
  actionAreaContentWidth : Int
  primaryCommands : List MeasuredCommand
deriving DecidableEq

/-- The `forEach` of `_measure` over the primary commands, threading the
`separatorWidth`, `standardCommandWidth` and `contentCommandWidths`
accumulators.  A `content` command always records its width keyed by unique
id (ids are unique per element, so keys never collide); the falsy tests
`if (!separatorWidth)` / `if (!standardCommandWidth)` overwrite the
accumulator only while it is still `0`. -/
def measureFold : List MeasuredCommand → Int → Int → List (Nat × Int) →
    Int × Int × List (Nat × Int)
  | [], separatorWidth, standardCommandWidth, contentCommandWidths =>
    (separatorWidth, standardCommandWidth, contentCommandWidths)
  | c :: rest, separatorWidth, standardCommandWidth, contentCommandWidths =>
    if c.type == typeContent then
      measureFold rest separatorWidth standardCommandWidth
        (contentCommandWidths ++ [(c.uniqueID, c.totalWidth)])
    else if c.type == typeSeparator then
      measureFold rest (if separatorWidth == 0 then c.totalWidth else separatorWidth)
        standardCommandWidth contentCommandWidths
    else
      measureFold rest separatorWidth
        (if standardCommandWidth == 0 then c.totalWidth else standardCommandWidth)
        contentCommandWidths

/-- `_measure`: when the root is in the rendered document and the action area
has positive `offsetWidth`, replace `_cachedMeasurements` with a freshly read
snapshot and report success; otherwise report failure without touching the
cached snapshot. -/
def measure (env : MeasureEnv) (cachedMeasurements : Option Measurements) :
    Bool × Option Measurements :=
  let canMeasure := env.bodyContainsRoot && decide (0 < env.actionAreaOffsetWidth)
  if canMeasure then
    let folded := measureFold env.primaryCommands 0 0 []
    (true, some {
      overflowButtonWidth := env.overflowButtonTotalWidth
      separatorWidth := folded.1
      standardCommandWidth := folded.2.1
      contentCommandWidths := folded.2.2
      actionAreaContentBoxWidth := env.actionAreaContentWidth })
  else
    (false, cachedMeasurements)

/-- The value a `!width`-guarded accumulator ends with: the first non-zero
width in the list, or `0` when there is none. -/
def firstNonzeroWidth : List Int → Int
  | [] => 0
  | w :: rest => if w == 0 then firstNonzeroWidth rest else w

/-- Widths of the separator commands of a command list. -/
def separatorWidths (cmds : List MeasuredCommand) : List Int :=
  (cmds.filter (fun c => !(c.type == typeContent) && (c.type == typeSeparator))).map
    (·.totalWidth)

/-- Widths of the standard (non-content, non-separator) commands. -/
def standardWidths (cmds : List MeasuredCommand) : List Int :=
  (cmds.filter (fun c => !(c.type == typeContent) && !(c.type == typeSeparator))).map
    (·.totalWidth)

/-- Per-content-command width entries in encounter order. -/
def contentWidthPairs (cmds : List MeasuredCommand) : List (Nat × Int) :=
  (cmds.filter (fun c => c.type == typeContent)).map (fun c => (c.uniqueID, c.totalWidth))

theorem measureFold_spec :
    ∀ (cmds : List MeasuredCommand) (sw stw : Int) (ccw : List (Nat × Int)),
      measureFold cmds sw stw ccw =
        ((if sw == 0 then firstNonzeroWidth (separatorWidths cmds) else sw),
         (if stw == 0 then firstNonzeroWidth (standardWidths cmds) else stw),
         ccw ++ contentWidthPairs cmds)
  | [], sw, stw, ccw => by
    unfold measureFold separatorWidths standardWidths contentWidthPairs firstNonzeroWidth
    simp only [List.filter_nil, List.map_nil, List.append_nil]
    cases hsw : sw == 0 <;> cases hstw : stw == 0 <;> simp_all [beq_iff_eq]
  | c :: rest, sw, stw, ccw => by
    by_cases hcont : (c.type == typeContent) = true
    · have ih := measureFold_spec rest sw stw (ccw ++ [(c.uniqueID, c.totalWidth)])
      unfold measureFold
      rw [if_pos hcont, ih]
      simp [separatorWidths, standardWidths, contentWidthPairs, List.filter_cons, hcont,
        List.append_assoc]
    · by_cases hsep : (c.type == typeSeparator) = true
      · have ih := measureFold_spec rest (if sw == 0 then c.totalWidth else sw) stw ccw
        unfold measureFold
        rw [if_neg hcont, if_pos hsep, ih]
        simp only [separatorWidths, standardWidths, contentWidthPairs, List.filter_cons,
          hcont, hsep, Bool.not_true, Bool.not_false, Bool.false_and, Bool.true_and,
          Bool.and_true, Bool.and_false, if_true, if_false, List.map_cons]
        cases hsw : sw == 0 <;> simp_all [firstNonzeroWidth]
      · have ih := measureFold_spec rest sw
          (if stw == 0 then c.totalWidth else stw) ccw
        unfold measureFold
        rw [if_neg hcont, if_neg hsep, ih]
        simp only [separatorWidths, standardWidths, contentWidthPairs, List.filter_cons,
          hcont, hsep, Bool.not_true, Bool.not_false, Bool.false_and, Bool.true_and,
          Bool.and_true, Bool.and_false, if_true, if_false, List.map_cons]
        cases hstw : stw == 0 <;> simp_all [firstNonzeroWidth]

/-- The C8 claim as stated is false in one detail: with two separator
commands measuring 0 and 5 (in that order), `_measure` succeeds and caches
`separatorWidth = 5`, while the width of the first separator encountered is
0: the falsy guard `if (!separatorWidth)` skips separators that measure 0. -/
theorem claim_C8_counterexample :
    measure ⟨true, 1, 32, 500, [⟨0, typeSeparator, 0⟩, ⟨1, typeSeparator, 5⟩]⟩ none
      = (true, some ⟨32, 5, 0, [], 500⟩) ∧
    ([(⟨0, typeSeparator, 0⟩ : MeasuredCommand), ⟨1, typeSeparator, 5⟩].getD 0
        ⟨0, "", 0⟩).totalWidth = 0 ∧ (5 : Int) ≠ 0 := by
  decide

/-- C8 (amended): whenever `measure()` runs while the host element is not
attached to the rendered document or the action area's measured width is
zero, it returns failure and leaves the cached measurement snapshot exactly
as it was before the call (including the case where no snapshot exists yet);
on success it replaces the snapshot — independently of the previous snapshot
— with freshly read overflow-button width, the width of the first separator
whose measured width is non-zero (0 when there is none), the width of the
first standard command whose measured width is non-zero (0 when there is
none), per-content-command widths, and action-area content-box width. -/
theorem claim_C8 (env : MeasureEnv) (cached : Option Measurements) :
    ((env.bodyContainsRoot = false ∨ env.actionAreaOffsetWidth ≤ 0) →
      measure env cached = (false, cached)) ∧
    (env.bodyContainsRoot = true → 0 < env.actionAreaOffsetWidth →
      measure env cached = (true, some {
        overflowButtonWidth := env.overflowButtonTotalWidth
        separatorWidth := firstNonzeroWidth (separatorWidths env.primaryCommands)
        standardCommandWidth := firstNonzeroWidth (standardWidths env.primaryCommands)
        contentCommandWidths := contentWidthPairs env.primaryCommands
        actionAreaContentBoxWidth := env.actionAreaContentWidth })) := by
  constructor
  · intro hfail
    have hcm : (env.bodyContainsRoot && decide (0 < env.actionAreaOffsetWidth)) = false := by
      rcases hfail with h | h
      · simp [h]
      · simp
        intro _
        omega
    unfold measure
    simp [hcm]
  · intro h1 h2
    have hcm : (env.bodyContainsRoot && decide (0 < env.actionAreaOffsetWidth)) = true := by
      simp [h1, h2]
    unfold measure
    simp only [hcm, if_true]
    rw [measureFold_spec]
    simp

theorem claim_C8_witness :
    measure ⟨false, 10, 32, 500, []⟩ (some ⟨1, 2, 3, [], 4⟩)
      = (false, some ⟨1, 2, 3, [], 4⟩) ∧
    measure ⟨true, 10, 32, 500, []⟩ (some ⟨1, 2, 3, [], 4⟩)
      = (true, some ⟨32, 0, 0, [], 500⟩) :=
  ⟨(claim_C8 ⟨false, 10, 32, 500, []⟩ (some ⟨1, 2, 3, [], 4⟩)).1 (Or.inl rfl),
   (claim_C8 ⟨true, 10, 32, 500, []⟩ (some ⟨1, 2, 3, [], 4⟩)).2 rfl (by decide)⟩

/-- The keys `_keyDownHandler` dispatches on (via `_ElementUtilities.Key`). -/
inductive NavKey
  | leftArrow
  | rightArrow
  | upArrow
  | downArrow
  | homeKey
  | endKey
deriving DecidableEq

/-- The `switch (ev.keyCode)` of `_keyDownHandler`, as the index of the
target command among the focusable elements: `case (rtl ? rightArrow :
leftArrow)` and `upArrow` compute `Math.max(0, focusedIndex - 1)` and read
`elements[index % elements.length]`; `case (rtl ? leftArrow : rightArrow)`
and `downArrow` compute `Math.min(focusedIndex + 1, elements.length - 1)`;
`home` reads index 0 and `end` index `elements.length - 1`.  With an empty
focusable list no target is computed. -/
def keyDownTargetIndex (rtl : Bool) (key : NavKey) (elementsLength : Nat)
    (focusedIndex : Int) : Option Int :=
  if elementsLength = 0 then none
  else if key = (if rtl then NavKey.rightArrow else NavKey.leftArrow) ∨ key = NavKey.upArrow
  then
    some (max 0 (focusedIndex - 1) % (elementsLength : Int))
  else if key = (if rtl then NavKey.leftArrow else NavKey.rightArrow) ∨ key = NavKey.downArrow
  then
    some (min (focusedIndex + 1) ((elementsLength : Int) - 1))
  else if key = NavKey.homeKey then some 0
  else if key = NavKey.endKey then some ((elementsLength : Int) - 1)
  else none

/-- C9: for every non-empty list of currently focusable elements with current
focused index `i`, directional keyboard input computes the new target index
as: home → 0; end → last index; forward (down arrow, and the arrow that means
forward under the current reading direction) → `min (i+1) (last index)` with
no wrap-around; backward (up arrow and the mirrored arrow) → `max (i-1) 0`
taken modulo the list length — and for an in-range index that modulo never
changes the value, so wrap-around can only occur on the backward path. -/
theorem claim_C9 (rtl : Bool) (n : Nat) (i : Int) (hn : 0 < n) (hi0 : 0 ≤ i)
    (hin : i < (n : Int)) :
    keyDownTargetIndex rtl NavKey.homeKey n i = some 0 ∧
    keyDownTargetIndex rtl NavKey.endKey n i = some ((n : Int) - 1) ∧
    keyDownTargetIndex rtl (if rtl then NavKey.leftArrow else NavKey.rightArrow) n i
      = some (min (i + 1) ((n : Int) - 1)) ∧
    keyDownTargetIndex rtl NavKey.downArrow n i = some (min (i + 1) ((n : Int) - 1)) ∧
    keyDownTargetIndex rtl (if rtl then NavKey.rightArrow else NavKey.leftArrow) n i
      = some (max 0 (i - 1) % (n : Int)) ∧
    keyDownTargetIndex rtl NavKey.upArrow n i = some (max 0 (i - 1) % (n : Int)) ∧
    max 0 (i - 1) % (n : Int) = max 0 (i - 1) := by
  have hne : ¬ n = 0 := by omega
  have hmod : max 0 (i - 1) % (n : Int) = max 0 (i - 1) := by
    apply Int.emod_eq_of_lt
    · exact le_max_left 0 (i - 1)
    · rcases max_choice 0 (i - 1) with hm | hm <;> rw [hm] <;> omega
  refine ⟨?_, ?_, ?_, ?_, ?_, ?_, hmod⟩ <;>
    cases rtl <;> simp [keyDownTargetIndex, hne]

theorem claim_C9_witness :
    keyDownTargetIndex false NavKey.homeKey 3 1 = some 0 ∧
    keyDownTargetIndex false NavKey.upArrow 3 1 = some (max 0 (1 - 1) % (3 : Int)) := by
  have h := claim_C9 false 3 1 (by decide) (by decide) (by decide)
  exact ⟨h.1, h.2.2.2.2.2.1⟩

/-- The own enumerable keys of the `ClosedDisplayMode` object literal. -/
def closedDisplayModeOwnKeys : List String := ["none", "minimal", "compact", "full"]

/-- Property names every JavaScript object literal inherits from
`Object.prototype` (the ES5.1 §15.2.4 methods plus the Annex B accessors
present in browsers).  Looking any of them up on `ClosedDisplayMode` yields a
function (or, for `__proto__`, an object), which is truthy. -/
def objectPrototypeProps : List String :=
  ["constructor", "hasOwnProperty", "isPrototypeOf", "propertyIsEnumerable",
   "toLocaleString", "toString", "valueOf", "__proto__", "__defineGetter__",
   "__defineSetter__", "__lookupGetter__", "__lookupSetter__"]

/-- Truthiness of the guard expression `ClosedDisplayMode[value]`: the four
own keys map to the non-empty strings "none"/"minimal"/"compact"/"full"
(truthy); inherited `Object.prototype` members are functions or objects
(truthy); any other lookup yields `undefined` (falsy). -/
def closedDisplayModeLookupTruthy (value : String) : Bool :=
  closedDisplayModeOwnKeys.contains value || objectPrototypeProps.contains value

/-- Observable state of the `closedDisplayMode` setter: the backing
`_closedDisplayMode` field and the number of `this._machine.updateDom()`
calls (re-renders) it has made. -/
structure ClosedDisplayModeState where
  closedDisplayMode : String
  updateDomCalls : Nat
deriving DecidableEq

/-- The `closedDisplayMode` setter: `isChangingState = (value !==
this._closedDisplayMode)`; when `ClosedDisplayMode[value]` is truthy and the
value changes, store the value and call `this._machine.updateDom()`;
otherwise do nothing. -/
def setClosedDisplayMode (value : String) (st : ClosedDisplayModeState) :
    ClosedDisplayModeState :=
  let isChangingState := value != st.closedDisplayMode
  if closedDisplayModeLookupTruthy value && isChangingState then
    { closedDisplayMode := value, updateDomCalls := st.updateDomCalls + 1 }
  else st

/-- C10 is right for genuinely unknown strings and for re-assigning the held
value, but the code has a bug for `Object.prototype` member names: assigning
`"toString"` while the mode is `"compact"` is *not* ignored — the guard
`ClosedDisplayMode[value]` finds the inherited `toString` function (truthy),
so the setter stores `"toString"` and triggers a re-render. -/
theorem claim_C10 :
    setClosedDisplayMode "toString" ⟨"compact", 0⟩ = ⟨"toString", 1⟩ ∧
    setClosedDisplayMode "garbage" ⟨"compact", 0⟩ = ⟨"compact", 0⟩ ∧
    setClosedDisplayMode "" ⟨"full", 3⟩ = ⟨"full", 3⟩ ∧
    setClosedDisplayMode "compact" ⟨"compact", 2⟩ = ⟨"compact", 2⟩ ∧
    setClosedDisplayMode "minimal" ⟨"compact", 0⟩ = ⟨"minimal", 1⟩ := by
  decide
